import Mathlib

/-!
Shallow embedding of src/chipy/analog.py (the chipy analog circuit layer).

Python objects are modelled by explicit state passing: a global ChipyState
holds the signal-id counter, a heap of signal records (signals are the only
mutable objects that are shared between the module dictionaries and the
device records), the global module dictionary ChipyModulesDict from the
sibling chipy.Chipy framework, and the per-class device counters.  Python
dictionaries are modelled as association lists with insert-or-replace
semantics, which preserves insertion order exactly as CPython does.
Fallible operations return an Except value together with the final state;
the state is returned also on the error path, since a raised Python
exception does not roll back earlier mutations.
-/

set_option autoImplicit false

/-- A Python scalar value as used by the analog layer: None, bool, int,
float (modelled as a rational) or str. -/
inductive PyVal where
  | none
  | bool (b : Bool)
  | int (n : Int)
  | float (q : ℚ)
  | str (s : String)
  deriving Repr, DecidableEq

/-- A raised Python exception, as far as the analog layer distinguishes
them: a failed assert statement, a NotImplementedError with its message,
or a lookup error on a mapping or attribute (never reached by the code
paths the claims are about). -/
inductive PyErr where
  | assertionError
  | notImplementedError (msg : String)
  | keyError
  deriving Repr, DecidableEq

instance {e a : Type} [DecidableEq e] [DecidableEq a] : DecidableEq (Except e a) :=
  fun x y =>
    match x, y with
    | .ok u, .ok v => if h : u = v then .isTrue (by rw [h]) else .isFalse (by simp [h])
    | .ok _, .error _ => .isFalse (by simp)
    | .error _, .ok _ => .isFalse (by simp)
    | .error u, .error v => if h : u = v then .isTrue (by rw [h]) else .isFalse (by simp [h])

/-- isinstance(v, int): in Python bool is a subclass of int, so both int
and bool values pass the check in AddDigitalInput and AddAnalogOutput. -/
def PyVal.isInt : PyVal → Bool
  | .int _ => true
  | .bool _ => true
  | _ => false

/-- The integer value of a Python int or bool (True == 1, False == 0). -/
def PyVal.toIntVal : PyVal → Int
  | .int n => n
  | .bool b => if b then 1 else 0
  | _ => 0

/-- A Python value tree as handed to json.dumps: scalars, lists and
(insertion-ordered) dictionaries with string keys. -/
inductive Json where
  | prim (v : PyVal)
  | arr (elems : List Json)
  | obj (fields : List (String × Json))

/-- dictGet d k is the Python d[k] lookup on an association list, taking
the first (and in well-formed dictionaries only) binding of k. -/
def dictGet {α : Type} : List (String × α) → String → Option α
  | [], _ => Option.none
  | p :: rest, k => if p.1 = k then some p.2 else dictGet rest k

/-- dictInsert d k v is the Python assignment d[k] = v: it replaces the
value of an existing binding of k in place, keeping its position, and
otherwise appends the new binding at the end, exactly as CPython
dictionaries behave. -/
def dictInsert {α : Type} : List (String × α) → String → α → List (String × α)
  | [], k, v => [(k, v)]
  | p :: rest, k, v => if p.1 = k then (k, v) :: rest else p :: dictInsert rest k v

/-- Translation of ChipyAnalogSignal minus its methods: the attribute bag
set up by lines 94-115 of analog.py.  The module attribute holds the name
of the owning module; codeloc is dropped (pure debug metadata from the
external chipy.Chipy helper ChipyCodeLoc). -/
structure ChipyAnalogSignal where
  id : Nat
  name : String
  module : String
  width : Int
  power : Bool
  power_value : PyVal
  ground : Bool
  inport : Bool
  outport : Bool
  digital : Bool
  high_value : PyVal
  low_value : PyVal
  high_threshold : PyVal
  low_threshold : PyVal
  deriving Repr, DecidableEq

/-- The kind of passive two-pin device: ChipyResistor, ChipyCapacitor or
ChipyVoltageSource (all subclasses of ChipyPassive in analog.py). -/
inductive PassiveKind where
  | resistor
  | capacitor
  | voltageSource
  deriving Repr, DecidableEq

/-- A fully initialised device record.  ChipyPassive stores references to
its two signals and its value; ChipyTransistor stores references to the
collector, base, emitter and substrate signals plus the model keyword
dictionary.  Signal references are the (immutable, globally unique) ids of
the referenced heap records. -/
inductive ChipyDevice where
  | passive (kind : PassiveKind) (sig1 sig2 : Nat) (value : PyVal)
  | transistor (c b e substrate : Nat) (model : List (String × PyVal))
  deriving Repr, DecidableEq

/-- The class attribute RefDes of the concrete device classes. -/
def PassiveKind.refDes : PassiveKind → String
  | .resistor => "R"
  | .capacitor => "C"
  | .voltageSource => "V"

/-- The class attribute Skin: resistor and capacitor carry a skin name,
transistors carry transistor-npn, and ChipyVoltageSource inherits the
ChipyDevice default None. -/
def ChipyDevice.Skin : ChipyDevice → Option String
  | .passive .resistor _ _ _ => some "resistor"
  | .passive .capacitor _ _ _ => some "capacitor"
  | .passive .voltageSource _ _ _ => Option.none
  | .transistor _ _ _ _ _ => some "transistor-npn"

/-- The value attribute read by netlist: a passive device carries the
value it was constructed with, while ChipyTransistor keeps the ChipyDevice
class default, the one-space string. -/
def ChipyDevice.value : ChipyDevice → PyVal
  | .passive _ _ _ v => v
  | .transistor _ _ _ _ _ => .str " "

/-- The connections method: pin name to connected signal id.  The
transistor substrate pin is not part of the connections dictionary. -/
def ChipyDevice.connections : ChipyDevice → List (String × Nat)
  | .passive _ s1 s2 _ => [("L", s1), ("R", s2)]
  | .transistor c b e _ _ => [("C", c), ("B", b), ("E", e)]

/-- Translation of ChipyAnalogModule minus its methods: name plus the
signals and devices dictionaries.  The signals dictionary maps a name to
the heap id of the signal object it holds. -/
structure ChipyAnalogModule where
  name : String
  signals : List (String × Nat)
  devices : List (String × ChipyDevice)
  deriving Repr, DecidableEq

/-- Modelled from the spec: an entry of the global ChipyModulesDict of the
sibling chipy.Chipy framework (not under src/).  The dictionary is a
process-global registry that can also hold digital modules of that
framework; for the analog layer only the ChipyAnalogModule entries matter,
so every other registered module is abstracted to an opaque tag. -/
inductive PyModule where
  | analog (m : ChipyAnalogModule)
  | other (tag : String)
  deriving Repr, DecidableEq

/-- The class a device is constructed through, which selects the RefDes
string and the IdCount class counter used for automatic naming. -/
inductive DeviceClass where
  | resistor
  | capacitor
  | transistor
  | voltageSource
  deriving Repr, DecidableEq

/-- The process-global state: the ChipyAnalogSignal.SigId class counter,
the heap of all signal records ever created (in creation order), the
global ChipyModulesDict (modelled from the spec: a plain name-to-module
registry dictionary in the sibling chipy.Chipy module), and the four
IdCount class counters of the concrete device classes. -/
structure ChipyState where
  sigId : Nat
  sigs : List ChipyAnalogSignal
  modules : List (String × PyModule)
  rCount : Nat
  cCount : Nat
  qCount : Nat
  vCount : Nat
  deriving Repr, DecidableEq

/-- The empty state: no signals, no modules, all counters zero. -/
def ChipyState.empty : ChipyState := ⟨0, [], [], 0, 0, 0, 0⟩

/-- Dereference a signal id in the heap. -/
def ChipyState.findSig (st : ChipyState) (i : Nat) : Option ChipyAnalogSignal :=
  st.sigs.find? fun s => s.id == i

/-- In-place mutation of the signal object with id i (Python attribute
assignment on a shared object reference). -/
def ChipyState.setSig (st : ChipyState) (i : Nat) (f : ChipyAnalogSignal → ChipyAnalogSignal) :
    ChipyState :=
  { st with sigs := st.sigs.map fun s => if s.id = i then f s else s }

/-- Look up a name in ChipyModulesDict expecting a ChipyAnalogModule. -/
def ChipyState.findAnalog (st : ChipyState) (name : String) : Option ChipyAnalogModule :=
  match dictGet st.modules name with
  | some (.analog m) => some m
  | _ => Option.none

/-- Write back a mutated ChipyAnalogModule record under its registry name
(in Python the dictionary holds a reference, so attribute mutation is
visible through it; here the updated record replaces the old one). -/
def ChipyState.setModule (st : ChipyState) (name : String) (m : ChipyAnalogModule) : ChipyState :=
  { st with modules := dictInsert st.modules name (.analog m) }

/-- The IdCount counter of a device class. -/
def ChipyState.getCount (st : ChipyState) : DeviceClass → Nat
  | .resistor => st.rCount
  | .capacitor => st.cCount
  | .transistor => st.qCount
  | .voltageSource => st.vCount

/-- Set the IdCount counter of a device class. -/
def ChipyState.setCount (st : ChipyState) (cls : DeviceClass) (n : Nat) : ChipyState :=
  match cls with
  | .resistor => { st with rCount := n }
  | .capacitor => { st with cCount := n }
  | .transistor => { st with qCount := n }
  | .voltageSource => { st with vCount := n }

/-- The RefDes class attribute seen through the device class. -/
def DeviceClass.refDes : DeviceClass → String
  | .resistor => "R"
  | .capacitor => "C"
  | .transistor => "Q"
  | .voltageSource => "V"

/-- A fresh ChipyAnalogSignal record with the attribute defaults of
ChipyAnalogSignal.--init-- lines 100-115: width 1, all flags False, all
levels and thresholds 0. -/
def ChipyAnalogSignal.make (id : Nat) (name : String) (module : String) : ChipyAnalogSignal :=
  { id := id, name := name, module := module, width := 1,
    power := false, power_value := .int 0, ground := false,
    inport := false, outport := false, digital := false,
    high_value := .int 0, low_value := .int 0,
    high_threshold := .int 0, low_threshold := .int 0 }

/-- Translation of ChipyAnalogSignal.--init-- (lines 94-115) for an
explicitly given name; the name=None branch delegates to the external
chipy.ChipyAutoName and is never taken by the analog layer itself.  The
new signal is registered in module.signals (with no uniqueness check: an
existing binding of the same name is silently replaced), SigId is bumped
and becomes the id of the new record.  The current module is addressed by
its registry name; a missing or non-analog binding is modelled as a
keyError (unreachable through the public API). -/
def ChipyAnalogSignal.init (st : ChipyState) (modName name : String) :
    Except PyErr Nat × ChipyState :=
  match st.findAnalog modName with
  | Option.none => (.error .keyError, st)
  | some m =>
    let newId := st.sigId + 1
    let sig := ChipyAnalogSignal.make newId name modName
    let st1 := { st with sigId := newId, sigs := st.sigs ++ [sig] }
    (.ok newId, st1.setModule modName { m with signals := dictInsert m.signals name newId })

/-- Translation of ChipyAnalogModule.--init-- (lines 23-30): the fresh
module asserts that its name is not yet in ChipyModulesDict and then
registers itself there.  On a duplicate name the assert fires before the
registration, so the dictionary is left unchanged. -/
def ChipyAnalogModule.init (st : ChipyState) (name : String) : Except PyErr String × ChipyState :=
  if (dictGet st.modules name).isSome then (.error .assertionError, st)
  else (.ok name, { st with modules := dictInsert st.modules name (.analog ⟨name, [], []⟩) })

/-- Translation of AddAnalogModule (lines 228-229). -/
def AddAnalogModule (st : ChipyState) (name : String) : Except PyErr String × ChipyState :=
  ChipyAnalogModule.init st name

/-- Translation of ChipyDevice.--init-- (lines 157-165) for a fully
initialised device record self: when no name is given the class counter
IdCount is incremented and the name is RefDes followed by the new counter
value; then the name is asserted to be free in module.devices and the
device is registered there.  On a duplicate name the assert fires after
the counter bump but before the registration. -/
def ChipyDevice.init (st : ChipyState) (modName : String) (cls : DeviceClass)
    (nameOpt : Option String) (self : ChipyDevice) : Except PyErr String × ChipyState :=
  let (name, st1) : String × ChipyState :=
    match nameOpt with
    | some n => (n, st)
    | Option.none =>
      let c := st.getCount cls + 1
      (cls.refDes ++ Nat.repr c, st.setCount cls c)
  match st1.findAnalog modName with
  | Option.none => (.error .keyError, st1)
  | some m =>
    if (dictGet m.devices name).isSome then (.error .assertionError, st1)
    else (.ok name, st1.setModule modName { m with devices := dictInsert m.devices name self })

/-- The accumulator pass of str.split(): walk the characters, collecting
the current token in reverse; a whitespace character closes the token (if
any), so runs of whitespace produce no empty pieces. -/
def pySplitGo : List Char → List Char → List String
  | [], cur => if cur.isEmpty then [] else [String.mk cur.reverse]
  | c :: rest, cur =>
    if c.isWhitespace then
      if cur.isEmpty then pySplitGo rest []
      else String.mk cur.reverse :: pySplitGo rest []
    else pySplitGo rest (c :: cur)

/-- Python str.split() with no argument: split on runs of whitespace,
dropping empty pieces (so leading and trailing whitespace is ignored). -/
def pySplit (s : String) : List String :=
  pySplitGo s.data []

/-- The argument of AnalogSig: an existing signal object (a reference,
modelled by its heap id) or a name string.  The tuple and list branch of
the source delegates wholly to the external chipy.Concat combinator of the
digital framework and is not modelled. -/
inductive AnalogSigArg where
  | sig (id : Nat)
  | str (s : String)
  deriving Repr, DecidableEq

/-- Translation of AnalogSig (lines 124-147).  An existing signal is
returned as is, after asserting that a supplied width matches its width
attribute.  A string is looked up in the signals dictionary of the current
module: a hit is returned (again with the width assert), a miss creates a
fresh ChipyAnalogSignal under that name and stores the supplied width on
it. -/
def AnalogSig (st : ChipyState) (cur : String) (arg : AnalogSigArg) (width : Option Int) :
    Except PyErr Nat × ChipyState :=
  match arg with
  | .sig i =>
    match width with
    | Option.none => (.ok i, st)
    | some w =>
      match st.findSig i with
      | some s => if s.width = w then (.ok i, st) else (.error .assertionError, st)
      | Option.none => (.error .keyError, st)
  | .str a =>
    match st.findAnalog cur with
    | Option.none => (.error .keyError, st)
    | some m =>
      match dictGet m.signals a with
      | some i =>
        match width with
        | Option.none => (.ok i, st)
        | some w =>
          match st.findSig i with
          | some s => if s.width = w then (.ok i, st) else (.error .assertionError, st)
          | Option.none => (.error .keyError, st)
      | Option.none =>
        match ChipyAnalogSignal.init st cur a with
        | (.ok i, st1) =>
          match width with
          | some w => (.ok i, st1.setSig i fun s => { s with width := w })
          | Option.none => (.ok i, st1)
        | (.error e, st1) => (.error e, st1)

/-- The result of the digital-input and analog-output constructors: a
single signal reference, or a list of them for a multi-name call. -/
inductive SigResult where
  | one (id : Nat)
  | many (ids : List Nat)
  deriving Repr, DecidableEq

/-- The single-name body of AddDigitalInput (lines 236-251): assert the
split produced exactly one name, raise NotImplementedError when the type
argument is not an int, then create the signal in the current module and
set width, inport, digital, high_value and low_value on it in that order.
The NotImplementedError fires before the signal exists, so the error path
leaves the state untouched. -/
def addDigitalInputSingle (st : ChipyState) (cur name : String)
    (type_ high_value low_value : PyVal) : Except PyErr Nat × ChipyState :=
  let names := pySplit name
  if names.length = 1 then
    let nm := names.headI
    if type_.isInt then
      match ChipyAnalogSignal.init st cur nm with
      | (.ok i, st1) =>
        let st2 := st1.setSig i fun s => { s with width := type_.toIntVal }
        let st3 := st2.setSig i fun s => { s with inport := true }
        let st4 := st3.setSig i fun s => { s with digital := true }
        let st5 := st4.setSig i fun s => { s with high_value := high_value }
        let st6 := st5.setSig i fun s => { s with low_value := low_value }
        (.ok i, st6)
      | (.error e, st1) => (.error e, st1)
    else (.error (.notImplementedError "Ports not supported yet"), st)
  else (.error .assertionError, st)

/-- One iteration of the multi-name comprehension of AddDigitalInput: the
recursive call with all keyword arguments at their defaults (type 1, high
3.3, low 0); an already raised exception short-circuits the rest. -/
def addDigitalInputsStep (cur : String) (acc : Except PyErr (List Nat) × ChipyState)
    (n : String) : Except PyErr (List Nat) × ChipyState :=
  match acc with
  | (.error e, s) => (.error e, s)
  | (.ok ids, s) =>
    match addDigitalInputSingle s cur n (.int 1) (.float (mkRat 33 10)) (.int 0) with
    | (.ok i, s2) => (.ok (ids ++ [i]), s2)
    | (.error e, s2) => (.error e, s2)

/-- Translation of AddDigitalInput (lines 232-251).  A whitespace-joined
multi-name argument recurses once per name with all keyword arguments at
their defaults (type 1, high 3.3, low 0); since each piece of the split is
a single nonempty whitespace-free token, the recursive call always takes
the single-name branch, which is inlined here.  An exception raised part
way through the comprehension keeps the mutations of the earlier
iterations, as in Python. -/
def AddDigitalInput (st : ChipyState) (cur name : String)
    (type_ high_value low_value : PyVal) : Except PyErr SigResult × ChipyState :=
  let names := pySplit name
  if 1 < names.length then
    let (r, st1) := names.foldl (addDigitalInputsStep cur) (.ok [], st)
    (r.map .many, st1)
  else
    let (r, st1) := addDigitalInputSingle st cur name type_ high_value low_value
    (r.map .one, st1)

/-- Translation of AddDigitalOutput (lines 254-255): an unconditional
NotImplementedError. -/
def AddDigitalOutput (st : ChipyState) (name : String) (type_ : PyVal) :
    Except PyErr SigResult × ChipyState :=
  (.error (.notImplementedError "Digital outputs are not supported yet"), st)

/-- Translation of AddAnalogInput (lines 258-259): an unconditional
NotImplementedError. -/
def AddAnalogInput (st : ChipyState) (name : String) (type_ : PyVal) :
    Except PyErr SigResult × ChipyState :=
  (.error (.notImplementedError "Analog inputs are not supported yet"), st)

/-- The single-name body of AddAnalogOutput (lines 266-278), mirroring the
digital-input one: only width and outport are set on the fresh signal. -/
def addAnalogOutputSingle (st : ChipyState) (cur name : String) (type_ : PyVal) :
    Except PyErr Nat × ChipyState :=
  let names := pySplit name
  if names.length = 1 then
    let nm := names.headI
    if type_.isInt then
      match ChipyAnalogSignal.init st cur nm with
      | (.ok i, st1) =>
        let st2 := st1.setSig i fun s => { s with width := type_.toIntVal }
        let st3 := st2.setSig i fun s => { s with outport := true }
        (.ok i, st3)
      | (.error e, st1) => (.error e, st1)
    else (.error (.notImplementedError "Ports not supported yet"), st)
  else (.error .assertionError, st)

/-- One iteration of the multi-name comprehension of AddAnalogOutput: the
recursive call with the type argument at its default 1. -/
def addAnalogOutputsStep (cur : String) (acc : Except PyErr (List Nat) × ChipyState)
    (n : String) : Except PyErr (List Nat) × ChipyState :=
  match acc with
  | (.error e, s) => (.error e, s)
  | (.ok ids, s) =>
    match addAnalogOutputSingle s cur n (.int 1) with
    | (.ok i, s2) => (.ok (ids ++ [i]), s2)
    | (.error e, s2) => (.error e, s2)

/-- Translation of AddAnalogOutput (lines 262-278); the multi-name branch
recurses with the default type 1, as in AddDigitalInput. -/
def AddAnalogOutput (st : ChipyState) (cur name : String) (type_ : PyVal) :
    Except PyErr SigResult × ChipyState :=
  let names := pySplit name
  if 1 < names.length then
    let (r, st1) := names.foldl (addAnalogOutputsStep cur) (.ok [], st)
    (r.map .many, st1)
  else
    let (r, st1) := addAnalogOutputSingle st cur name type_
    (r.map .one, st1)

/-- The yosys_cell helper nested in netlist (lines 43-57): a cell
dictionary with the skin as type, each pin wired to a one-element net
list, and, only when the value is not None, an attributes dictionary
holding the value. -/
def yosys_cell (skin_name : String) (pin_net_dict : List (String × Nat)) (value : PyVal) : Json :=
  let connections := pin_net_dict.map fun p => (p.1, Json.arr [.prim (.int (p.2 : Int))])
  Json.obj
    ([("type", .prim (.str skin_name)), ("connections", .obj connections)] ++
      (if value = PyVal.none then [] else [("attributes", .obj [("value", .prim value)])]))

/-- A port dictionary of netlist (lines 70 and 72). -/
def portJson (direction : String) (id : Nat) : Json :=
  .obj [("direction", .prim (.str direction)), ("bits", .arr [.prim (.int (id : Int))])]

/-- The device loop body of netlist (lines 60-63): a device with a Skin
contributes a cell under its reference, one without is skipped. -/
def netlistDevStep (cells : List (String × Json)) (rd : String × ChipyDevice) :
    List (String × Json) :=
  match rd.2.Skin with
  | some skin => dictInsert cells rd.1 (yosys_cell skin rd.2.connections rd.2.value)
  | Option.none => cells

/-- The signal loop body of netlist (lines 64-72): the first set flag in
the order power, ground, inport, outport decides the single contribution
of the signal; a signal with none of the flags contributes nothing. -/
def netlistSigStep (pc : List (String × Json) × List (String × Json))
    (ns : String × ChipyAnalogSignal) : List (String × Json) × List (String × Json) :=
  let (ports, cells) := pc
  let (name, s) := ns
  if s.power then (ports, dictInsert cells name (yosys_cell "power" [("VCC", s.id)] (.str name)))
  else if s.ground then
    (ports, dictInsert cells name (yosys_cell "ground" [("GND", s.id)] (.str name)))
  else if s.inport then (dictInsert ports name (portJson "input" s.id), cells)
  else if s.outport then (dictInsert ports name (portJson "output" s.id), cells)
  else (ports, cells)

/-- The body of ChipyAnalogModule.netlist (lines 59-77) over the module
content with the signal references already dereferenced: the device loop
fills the cells dictionary, the signal loop fills ports and cells, and the
result has exactly the two keys ports and cells. -/
def netlistCore (devices : List (String × ChipyDevice))
    (sigs : List (String × ChipyAnalogSignal)) : Json :=
  let cells0 := devices.foldl netlistDevStep []
  let pc := sigs.foldl netlistSigStep ([], cells0)
  .obj [("ports", .obj pc.1), ("cells", .obj pc.2)]

/-- The signals dictionary of a module with each stored reference
dereferenced in the heap (a dangling reference, impossible through the
API, is dropped). -/
def resolveSigs (st : ChipyState) (m : ChipyAnalogModule) : List (String × ChipyAnalogSignal) :=
  m.signals.filterMap fun ns => (st.findSig ns.2).map fun s => (ns.1, s)

/-- Translation of ChipyAnalogModule.netlist (lines 42-77). -/
def ChipyAnalogModule.netlist (st : ChipyState) (m : ChipyAnalogModule) : Json :=
  netlistCore m.devices (resolveSigs st m)

/-- Modelled from the spec: a node argument of the external eispice
simulation engine, either the global ground rail eispice.GND or a named
node. -/
inductive EispiceVal where
  | GND
  | name (s : String)
  deriving Repr, DecidableEq

/-- Modelled from the spec: the model objects of the external eispice
engine that this layer constructs, recorded with their construction
arguments: the two-pin primitives eispice.R, eispice.C and eispice.V, the
transistor eispice.Q with its keyword model dictionary, and the
EispiceDigitalInput wrapper defined in analog.py lines 6-19, recorded by
its node name and its high and low voltage levels. -/
inductive EispiceDeviceModel where
  | R (p n : EispiceVal) (value : PyVal)
  | C (p n : EispiceVal) (value : PyVal)
  | V (p n : EispiceVal) (value : PyVal)
  | Q (c b e : EispiceVal) (model : List (String × PyVal))
  | digitalInput (node : String) (high low : PyVal)
  deriving Repr, DecidableEq

/-- Modelled from the spec: an eispice.Circuit as this layer configures
it, recorded as its title and the ordered list of setattr events executed
on it. -/
structure EispiceCircuit where
  title : String
  attrs : List (String × EispiceDeviceModel)
  deriving Repr, DecidableEq

/-- Translation of ChipyAnalogSignal.eispice_model (lines 117-121): the
ground rail for a ground signal, the node named after the signal
otherwise. -/
def ChipyAnalogSignal.eispice_model (s : ChipyAnalogSignal) : EispiceVal :=
  if s.ground then .GND else .name s.name

/-- Dereference a signal id and take its eispice model; the dangling case
is unreachable, since devices only ever hold references to signals that
live in the heap. -/
def sigEispice (st : ChipyState) (i : Nat) : EispiceVal :=
  match st.findSig i with
  | some s => s.eispice_model
  | Option.none => .name ""

/-- The eispice_model methods of ChipyPassive (lines 175-178) and
ChipyTransistor (lines 212-216): the class EispiceModel applied to the
eispice models of the connected signals.  The transistor substrate signal
is not passed on to eispice.Q. -/
def ChipyDevice.eispice_model (st : ChipyState) : ChipyDevice → EispiceDeviceModel
  | .passive .resistor s1 s2 v => .R (sigEispice st s1) (sigEispice st s2) v
  | .passive .capacitor s1 s2 v => .C (sigEispice st s1) (sigEispice st s2) v
  | .passive .voltageSource s1 s2 v => .V (sigEispice st s1) (sigEispice st s2) v
  | .transistor c b e _ model => .Q (sigEispice st c) (sigEispice st b) (sigEispice st e) model

/-- Translation of ChipyAnalogModule.eispice_model (lines 79-88): the
circuit is titled with the module name, each registered device sets one
attribute holding its eispice model, and each signal that is both digital
and an inport sets one EispiceDigitalInput attribute built from the signal
name and its high and low levels. -/
def ChipyAnalogModule.eispice_model (st : ChipyState) (m : ChipyAnalogModule) : EispiceCircuit :=
  { title := m.name
    attrs :=
      (m.devices.map fun nd => (nd.1, nd.2.eispice_model st)) ++
      (m.signals.filterMap fun ns =>
        match st.findSig ns.2 with
        | some s =>
          if s.digital && s.inport then
            some (ns.1, .digitalInput s.name s.high_value s.low_value)
          else Option.none
        | Option.none => Option.none) }

/-- Modelled from the spec: the JSON string escaping of the Python json
library for the characters that can occur here. -/
def jsonEscapeChar (c : Char) : String :=
  if c = '"' then "\\\""
  else if c = '\\' then "\\\\"
  else if c = '\n' then "\\n"
  else if c = '\t' then "\\t"
  else if c = '\r' then "\\r"
  else c.toString

/-- Escape a string for a JSON string literal. -/
def jsonEscape (s : String) : String :=
  s.foldl (fun acc c => acc ++ jsonEscapeChar c) ""

/-- Modelled from the spec: the decimal rendering of a Python float by
the json library, with the fractional digits truncated after seventeen
places (exact for every value the analog layer produces). -/
def floatDigits : Nat → ℚ → String
  | 0, _ => ""
  | _, 0 => ""
  | fuel + 1, q =>
    let d := (q * 10).floor
    Char.toString (Char.ofNat (48 + d.toNat)) ++ floatDigits fuel (q * 10 - d)

/-- Modelled from the spec: repr of a Python float value. -/
def floatRepr (q : ℚ) : String :=
  let sgn := if q < 0 then "-" else ""
  let a := |q|
  let ds := floatDigits 17 (a - a.floor)
  if ds = "" then sgn ++ Int.repr a.floor ++ ".0"
  else sgn ++ Int.repr a.floor ++ "." ++ ds

/-- Modelled from the spec: the rendering of a JSON scalar by json.dumps. -/
def PyVal.jsonRepr : PyVal → String
  | .none => "null"
  | .bool b => if b then "true" else "false"
  | .int n => Int.repr n
  | .float q => floatRepr q
  | .str s => "\"" ++ jsonEscape s ++ "\""

/-- Insert a key-value pair into a list sorted by key (stable, so later
duplicates stay behind earlier ones, matching Python sorted). -/
def jsonInsertSorted (kv : String × Json) : List (String × Json) → List (String × Json)
  | [] => [kv]
  | p :: rest => if kv.1 < p.1 then kv :: p :: rest else p :: jsonInsertSorted kv rest

/-- Insertion sort of dictionary items by key, the effect of the
sort_keys=True option of json.dumps. -/
def jsonSortFields (l : List (String × Json)) : List (String × Json) :=
  l.foldr jsonInsertSorted []

/-- The indentation prefix at nesting depth n for indent=2. -/
def jsonIndent (n : Nat) : String :=
  String.join (List.replicate n "  ")

/-- Modelled from the spec: json.dumps with sort_keys=True, indent=2 and
separators (comma, colon-space), written with explicit recursion fuel; the
wrapper below supplies enough fuel for any finite value, so the fuel never
runs out. -/
def jsonDumpsFuel : Nat → Nat → Json → String
  | 0, _, _ => ""
  | fuel + 1, lvl, j =>
    match j with
    | .prim v => v.jsonRepr
    | .arr [] => "[]"
    | .arr xs =>
      "[\n" ++
        String.intercalate ",\n"
          (xs.map fun x => jsonIndent (lvl + 1) ++ jsonDumpsFuel fuel (lvl + 1) x) ++
        "\n" ++ jsonIndent lvl ++ "]"
    | .obj [] => "\x7b\x7d"
    | .obj kvs =>
      "\x7b\n" ++
        String.intercalate ",\n"
          ((jsonSortFields kvs).map fun kv =>
            jsonIndent (lvl + 1) ++ "\"" ++ jsonEscape kv.1 ++ "\": " ++
              jsonDumpsFuel fuel (lvl + 1) kv.2) ++
        "\n" ++ jsonIndent lvl ++ "\x7d"

mutual

/-- The number of constructors of a JSON value, used as recursion fuel
for the serializer: every nesting level consumes at least one unit. -/
def Json.size : Json → Nat
  | .prim _ => 1
  | .arr xs => 1 + Json.sizeList xs
  | .obj kvs => 1 + Json.sizeFields kvs

/-- Total size of a list of JSON values. -/
def Json.sizeList : List Json → Nat
  | [] => 0
  | x :: xs => Json.size x + Json.sizeList xs

/-- Total size of the values of a JSON dictionary. -/
def Json.sizeFields : List (String × Json) → Nat
  | [] => 0
  | kv :: rest => Json.size kv.2 + Json.sizeFields rest

end

/-- Modelled from the spec: json.dumps(j, sort_keys=True, indent=2,
separators=(comma, colon-space)) as called by WriteNetlist. -/
def jsonDumps (j : Json) : String :=
  jsonDumpsFuel (Json.size j + 1) 0 j

/-- The loop body of WriteNetlist (lines 318-320): a ChipyAnalogModule
entry of ChipyModulesDict contributes its netlist under its registry name,
every other entry is skipped. -/
def writeNetlistStep (st : ChipyState) (acc : List (String × Json)) (nm : String × PyModule) :
    List (String × Json) :=
  match nm.2 with
  | .analog m => dictInsert acc nm.1 (m.netlist st)
  | .other _ => acc

/-- Translation of WriteNetlist (lines 316-323): collect the netlist of
every registered module that is a ChipyAnalogModule (skipping every other
entry of ChipyModulesDict), wrap the dictionary under the single key
modules, serialize it sorted with two-space indentation, and print it,
which appends a newline.  The returned string is the full text printed to
the file object. -/
def WriteNetlist (st : ChipyState) : String :=
  let modules := st.modules.foldl (writeNetlistStep st) []
  jsonDumps (.obj [("modules", .obj modules)]) ++ "\n"

theorem dictGet_insert_self {α : Type} (d : List (String × α)) (k : String) (v : α) :
    dictGet (dictInsert d k v) k = some v := by
  induction d with
  | nil => simp [dictInsert, dictGet]
  | cons p rest ih =>
    by_cases hp : p.1 = k
    · simp [dictInsert, dictGet, hp]
    · simp [dictInsert, dictGet, hp, ih]

theorem dictGet_insert_ne {α : Type} (d : List (String × α)) (k k2 : String) (v : α)
    (h : k2 ≠ k) : dictGet (dictInsert d k v) k2 = dictGet d k2 := by
  have h2 : k ≠ k2 := Ne.symm h
  induction d with
  | nil => simp [dictInsert, dictGet, h2]
  | cons p rest ih =>
    by_cases hp : p.1 = k
    · simp [dictInsert, dictGet, hp, h2]
    · by_cases hp2 : p.1 = k2
      · simp [dictInsert, dictGet, hp, hp2, h2, h]
      · simp [dictInsert, dictGet, hp, hp2, ih]

theorem dictInsert_of_get_none {α : Type} (d : List (String × α)) (k : String) (v : α)
    (h : dictGet d k = Option.none) : dictInsert d k v = d ++ [(k, v)] := by
  induction d with
  | nil => simp [dictInsert]
  | cons p rest ih =>
    by_cases hp : p.1 = k
    · simp [dictGet, hp] at h
    · simp [dictGet, hp] at h
      simp [dictInsert, hp, ih h]

theorem mem_dictInsert {α : Type} (d : List (String × α)) (k : String) (v : α)
    (e : String × α) (he : e ∈ dictInsert d k v) : e ∈ d ∨ e = (k, v) := by
  induction d with
  | nil => simpa [dictInsert] using he
  | cons p rest ih =>
    by_cases hp : p.1 = k
    · simp [dictInsert, hp] at he
      rcases he with he | he
      · right; exact he
      · left; exact List.mem_cons_of_mem _ he
    · simp [dictInsert, hp] at he
      rcases he with he | he
      · left; simp [he]
      · rcases ih he with h1 | h1
        · left; exact List.mem_cons_of_mem _ h1
        · right; exact h1

theorem find?_none_of_all {α : Type} (p : α → Bool) (l : List α)
    (h : ∀ x ∈ l, p x = false) : l.find? p = Option.none := by
  rw [List.find?_eq_none]
  intro x hx
  simp [h x hx]

theorem find?_append_of_some {α : Type} (p : α → Bool) (l1 l2 : List α) (x : α)
    (h : l1.find? p = some x) : (l1 ++ l2).find? p = some x := by
  induction l1 with
  | nil => simp at h
  | cons y rest ih =>
    by_cases hy : p y = true
    · rw [List.find?_cons_of_pos _ hy] at h
      rw [List.cons_append, List.find?_cons_of_pos _ hy]
      exact h
    · rw [List.find?_cons_of_neg _ hy] at h
      rw [List.cons_append, List.find?_cons_of_neg _ hy]
      exact ih h

theorem find?_append_of_none {α : Type} (p : α → Bool) (l1 l2 : List α)
    (h : l1.find? p = Option.none) : (l1 ++ l2).find? p = l2.find? p := by
  induction l1 with
  | nil => simp
  | cons y rest ih =>
    by_cases hy : p y = true
    · rw [List.find?_cons_of_pos _ hy] at h
      cases h
    · rw [List.find?_cons_of_neg _ hy] at h
      rw [List.cons_append, List.find?_cons_of_neg _ hy]
      exact ih h

/-- The heap invariant every reachable state satisfies: no signal record
carries an id above the SigId counter. -/
def ChipyState.wfSigs (st : ChipyState) : Prop :=
  ∀ s ∈ st.sigs, s.id ≤ st.sigId

instance (st : ChipyState) : Decidable st.wfSigs := by
  unfold ChipyState.wfSigs; infer_instance

/-- An in-place update whose target id appears in none of the elements is
the identity on the list. -/
theorem map_update_id (l : List ChipyAnalogSignal) (j : Nat)
    (f : ChipyAnalogSignal → ChipyAnalogSignal) (h : ∀ s ∈ l, s.id ≠ j) :
    (l.map fun s => if s.id = j then f s else s) = l := by
  induction l with
  | nil => rfl
  | cons s rest ih =>
    have hs := h s (by simp)
    simp only [List.map_cons, if_neg hs]
    rw [ih fun y hy => h y (List.mem_cons_of_mem _ hy)]

/-- Updating the most recently created signal rewrites only the last heap
record, provided the earlier records all carry different ids. -/
theorem setSig_append (st : ChipyState) (l : List ChipyAnalogSignal) (s0 : ChipyAnalogSignal)
    (f : ChipyAnalogSignal → ChipyAnalogSignal) (hsigs : st.sigs = l ++ [s0])
    (h : ∀ s ∈ l, s.id ≠ s0.id) :
    st.setSig s0.id f = { st with sigs := l ++ [f s0] } := by
  unfold ChipyState.setSig
  rw [hsigs, List.map_append]
  rw [map_update_id l _ f h]
  simp

/-- Explicit form of a successful ChipyAnalogSignal construction. -/
theorem signalInit_eq (st : ChipyState) (modName name : String) (m : ChipyAnalogModule)
    (h : st.findAnalog modName = some m) :
    ChipyAnalogSignal.init st modName name =
      (.ok (st.sigId + 1),
        { st with
            sigId := st.sigId + 1
            sigs := st.sigs ++ [ChipyAnalogSignal.make (st.sigId + 1) name modName]
            modules := dictInsert st.modules modName
              (.analog { m with signals := dictInsert m.signals name (st.sigId + 1) }) }) := by
  simp [ChipyAnalogSignal.init, h, ChipyState.setModule]

/-- Reading back a module just written under its name. -/
theorem findAnalog_setModule (st : ChipyState) (n : String) (m : ChipyAnalogModule) :
    (st.setModule n m).findAnalog n = some m := by
  simp [ChipyState.findAnalog, ChipyState.setModule, dictGet_insert_self]

/-- Example state: one registered analog module named top. -/
def stTop : ChipyState := (AddAnalogModule ChipyState.empty "top").2

/-- Example state: module top holding one digital input signal din. -/
def stDin : ChipyState :=
  (AddDigitalInput stTop "top" "din" (.int 1) (.float (mkRat 33 10)) (.int 0)).2

/-- The module record of top after the digital input din was added. -/
def topModDin : ChipyAnalogModule := ⟨"top", [("din", 1)], []⟩

/-- C4, counterexample: in the state stDin the name din is already
registered in the signals dictionary of module top, yet constructing a
second ChipyAnalogSignal under that very name succeeds (with the fresh id
2) instead of failing with an assertion error: ChipyAnalogSignal.--init--
performs no uniqueness check before the assignment into module.signals. -/
theorem claim4_counterexample :
    stDin.findAnalog "top" = some topModDin ∧
    dictGet topModDin.signals "din" = some 1 ∧
    (ChipyAnalogSignal.init stDin "top" "din").1 = Except.ok 2 := by
  refine ⟨by decide, by decide, by decide⟩

/-- C4 (amended): module and device construction are unique-name
registration, failing the assert on a duplicate name and registering the
entity under its name on success; signal construction registers the signal
under its name with no uniqueness check at all, so it also succeeds on a
name that is already registered, replacing the previous entry. -/
theorem claim4_registration :
    (∀ st name, (dictGet st.modules name).isSome →
      ChipyAnalogModule.init st name = (.error .assertionError, st)) ∧
    (∀ st name, dictGet st.modules name = Option.none →
      ∃ st2, ChipyAnalogModule.init st name = (.ok name, st2) ∧
        dictGet st2.modules name = some (.analog ⟨name, [], []⟩)) ∧
    (∀ st modName cls name dev m, st.findAnalog modName = some m →
      (dictGet m.devices name).isSome →
      ChipyDevice.init st modName cls (some name) dev = (.error .assertionError, st)) ∧
    (∀ st modName cls name dev m, st.findAnalog modName = some m →
      dictGet m.devices name = Option.none →
      ∃ st2 m2, ChipyDevice.init st modName cls (some name) dev = (.ok name, st2) ∧
        st2.findAnalog modName = some m2 ∧ dictGet m2.devices name = some dev) ∧
    (∀ st modName name m, st.findAnalog modName = some m →
      ∃ st2, ChipyAnalogSignal.init st modName name = (.ok (st.sigId + 1), st2) ∧
        ∃ m2, st2.findAnalog modName = some m2 ∧
          dictGet m2.signals name = some (st.sigId + 1)) := by
  refine ⟨?_, ?_, ?_, ?_, ?_⟩
  · intro st name h
    simp [ChipyAnalogModule.init, h]
  · intro st name h
    refine ⟨{ st with modules := dictInsert st.modules name (.analog ⟨name, [], []⟩) }, ?_, ?_⟩
    · simp [ChipyAnalogModule.init, h]
    · exact dictGet_insert_self _ _ _
  · intro st modName cls name dev m hm h
    simp [ChipyDevice.init, hm, h]
  · intro st modName cls name dev m hm h
    refine ⟨st.setModule modName { m with devices := dictInsert m.devices name dev },
      { m with devices := dictInsert m.devices name dev },
      ?_, findAnalog_setModule _ _ _, dictGet_insert_self _ _ _⟩
    simp [ChipyDevice.init, hm, h, ChipyState.setModule]
  · intro st modName name m hm
    refine ⟨_, signalInit_eq st modName name m hm, ?_⟩
    refine ⟨{ m with signals := dictInsert m.signals name (st.sigId + 1) }, ?_,
      dictGet_insert_self _ _ _⟩
    simp [ChipyState.findAnalog, dictGet_insert_self]

/-- C4, witness: the assert fires on re-registering module top in stTop,
and constructing a signal under the taken name din in stDin succeeds and
re-registers din. -/
theorem claim4_registration_witness :
    ChipyAnalogModule.init stTop "top" = (.error .assertionError, stTop) ∧
    (∃ st2, ChipyAnalogSignal.init stDin "top" "din" = (.ok (stDin.sigId + 1), st2) ∧
      ∃ m2, st2.findAnalog "top" = some m2 ∧
        dictGet m2.signals "din" = some (stDin.sigId + 1)) := by
  constructor
  · exact claim4_registration.1 stTop "top" (by decide)
  · exact claim4_registration.2.2.2.2 stDin "top" "din" topModDin (by decide)

/-- C7: registering a fresh module appends exactly one entry to
ChipyModulesDict and leaves every previously registered entry unchanged;
likewise registering a fresh device appends exactly one entry to the
devices dictionary of its module without altering any existing entry. -/
theorem claim7_frame :
    (∀ st name, dictGet st.modules name = Option.none →
      ∃ st2, AddAnalogModule st name = (.ok name, st2) ∧
        st2.modules = st.modules ++ [(name, .analog ⟨name, [], []⟩)] ∧
        st2.modules.length = st.modules.length + 1 ∧
        dictGet st2.modules name = some (.analog ⟨name, [], []⟩) ∧
        (∀ k, k ≠ name → dictGet st2.modules k = dictGet st.modules k)) ∧
    (∀ st modName cls name dev m, st.findAnalog modName = some m →
      dictGet m.devices name = Option.none →
      ∃ st2 m2, ChipyDevice.init st modName cls (some name) dev = (.ok name, st2) ∧
        st2.findAnalog modName = some m2 ∧
        m2.devices = m.devices ++ [(name, dev)] ∧
        m2.devices.length = m.devices.length + 1 ∧
        dictGet m2.devices name = some dev ∧
        (∀ k, k ≠ name → dictGet m2.devices k = dictGet m.devices k)) := by
  constructor
  · intro st name h
    refine ⟨{ st with modules := dictInsert st.modules name (.analog ⟨name, [], []⟩) }, ?_, ?_, ?_, ?_, ?_⟩
    · simp [AddAnalogModule, ChipyAnalogModule.init, h]
    · simpa using dictInsert_of_get_none st.modules name _ h
    · have := dictInsert_of_get_none st.modules name (PyModule.analog ⟨name, [], []⟩) h
      simp [this]
    · exact dictGet_insert_self _ _ _
    · intro k hk
      exact dictGet_insert_ne _ _ _ _ hk
  · intro st modName cls name dev m hm h
    refine ⟨st.setModule modName { m with devices := dictInsert m.devices name dev },
      { m with devices := dictInsert m.devices name dev },
      ?_, findAnalog_setModule _ _ _, ?_, ?_, dictGet_insert_self _ _ _, ?_⟩
    · simp [ChipyDevice.init, hm, h, ChipyState.setModule]
    · simpa using dictInsert_of_get_none m.devices name dev h
    · have := dictInsert_of_get_none m.devices name dev h
      simp [this]
    · intro k hk
      exact dictGet_insert_ne _ _ _ _ hk

/-- C7, witness: registering module top in the empty state appends its
single entry. -/
theorem claim7_frame_witness :
    ∃ st2, AddAnalogModule ChipyState.empty "top" = (.ok "top", st2) ∧
      st2.modules = ChipyState.empty.modules ++ [("top", .analog ⟨"top", [], []⟩)] ∧
      st2.modules.length = ChipyState.empty.modules.length + 1 ∧
      dictGet st2.modules "top" = some (.analog ⟨"top", [], []⟩) ∧
      (∀ k, k ≠ "top" → dictGet st2.modules k = dictGet ChipyState.empty.modules k) :=
  claim7_frame.1 ChipyState.empty "top" (by decide)

/-- C9: constructing a signal bumps the SigId class counter by one and
uses the new counter value as the id of the fresh record, so ids are
positive, strictly above every id created before, and (given the heap
invariants) pairwise distinct. -/
theorem claim9_sigid (st : ChipyState) (modName name : String) (m : ChipyAnalogModule)
    (hm : st.findAnalog modName = some m) (hwf : st.wfSigs)
    (hnd : (st.sigs.map ChipyAnalogSignal.id).Nodup) :
    ∃ st2, ChipyAnalogSignal.init st modName name = (.ok (st.sigId + 1), st2) ∧
      st2.sigId = st.sigId + 1 ∧
      0 < st.sigId + 1 ∧
      (∀ s ∈ st.sigs, s.id < st.sigId + 1) ∧
      st2.findSig (st.sigId + 1) = some (ChipyAnalogSignal.make (st.sigId + 1) name modName) ∧
      st2.wfSigs ∧
      (st2.sigs.map ChipyAnalogSignal.id).Nodup := by
  refine ⟨_, signalInit_eq st modName name m hm, rfl, Nat.succ_pos _, ?_, ?_, ?_, ?_⟩
  · intro s hs
    exact Nat.lt_succ_of_le (hwf s hs)
  · show (st.sigs ++ [ChipyAnalogSignal.make (st.sigId + 1) name modName]).find?
      (fun s => s.id == st.sigId + 1) = _
    rw [find?_append_of_none]
    · simp [List.find?, ChipyAnalogSignal.make]
    · exact find?_none_of_all _ _ fun s hs => by
        have := hwf s hs
        simp only [beq_eq_false_iff_ne, ne_eq]
        omega
  · intro s hs
    simp only [List.mem_append, List.mem_singleton] at hs
    rcases hs with hs | hs
    · exact Nat.le_succ_of_le (hwf s hs)
    · simp [hs, ChipyAnalogSignal.make]
  · simp only [List.map_append]
    rw [List.nodup_append]
    refine ⟨hnd, by simp, ?_⟩
    intro x hx
    simp only [List.mem_map] at hx
    obtain ⟨s, hs, hid⟩ := hx
    have := hwf s hs
    simp [ChipyAnalogSignal.make]
    omega

/-- C9, witness: adding a signal to module top in stDin (counter 1) yields
the id 2. -/
theorem claim9_sigid_witness :
    ∃ st2, ChipyAnalogSignal.init stDin "top" "net1" = (.ok (stDin.sigId + 1), st2) ∧
      st2.sigId = stDin.sigId + 1 ∧
      0 < stDin.sigId + 1 ∧
      (∀ s ∈ stDin.sigs, s.id < stDin.sigId + 1) ∧
      st2.findSig (stDin.sigId + 1) =
        some (ChipyAnalogSignal.make (stDin.sigId + 1) "net1" "top") ∧
      st2.wfSigs ∧
      (st2.sigs.map ChipyAnalogSignal.id).Nodup :=
  claim9_sigid stDin "top" "net1" topModDin (by decide) (by decide) (by decide)

/-- C5: AddDigitalOutput and AddAnalogInput raise NotImplementedError on
every input, and AddDigitalInput and AddAnalogOutput raise
NotImplementedError on a single-name call whose type argument is not an
int; in all these cases the state, and with it every registry, is returned
unchanged. -/
theorem claim5_not_implemented :
    (∀ st name t, AddDigitalOutput st name t =
      (.error (.notImplementedError "Digital outputs are not supported yet"), st)) ∧
    (∀ st name t, AddAnalogInput st name t =
      (.error (.notImplementedError "Analog inputs are not supported yet"), st)) ∧
    (∀ st cur name t hv lv, (pySplit name).length = 1 → t.isInt = false →
      AddDigitalInput st cur name t hv lv =
        (.error (.notImplementedError "Ports not supported yet"), st)) ∧
    (∀ st cur name t, (pySplit name).length = 1 → t.isInt = false →
      AddAnalogOutput st cur name t =
        (.error (.notImplementedError "Ports not supported yet"), st)) := by
  refine ⟨fun _ _ _ => rfl, fun _ _ _ => rfl, ?_, ?_⟩
  · intro st cur name t hv lv h1 h2
    simp [AddDigitalInput, addDigitalInputSingle, h1, h2, Except.map]
  · intro st cur name t h1 h2
    simp [AddAnalogOutput, addAnalogOutputSingle, h1, h2, Except.map]

/-- C5, witness: a single-name digital input with a string type argument
raises and leaves stTop unchanged. -/
theorem claim5_not_implemented_witness :
    AddDigitalInput stTop "top" "x" (.str "w") (.int 0) (.int 0) =
      (.error (.notImplementedError "Ports not supported yet"), stTop) :=
  claim5_not_implemented.2.2.1 stTop "top" "x" (.str "w") (.int 0) (.int 0)
    (by decide) (by decide)

/-- C3: inside netlist, a signal contributes at most one entry, selected
by the first set flag in the fixed order power, ground, inport, outport: a
power signal a power cell wired to VCC with the signal name as value, a
ground signal a ground cell wired to GND with the signal name as value, an
inport an input port, an outport an output port, and a signal with none of
the flags contributes nothing. -/
theorem claim3_signal_priority (ports cells : List (String × Json)) (name : String)
    (s : ChipyAnalogSignal) :
    (s.power = true →
      netlistSigStep (ports, cells) (name, s) =
        (ports, dictInsert cells name (yosys_cell "power" [("VCC", s.id)] (.str name)))) ∧
    (s.power = false → s.ground = true →
      netlistSigStep (ports, cells) (name, s) =
        (ports, dictInsert cells name (yosys_cell "ground" [("GND", s.id)] (.str name)))) ∧
    (s.power = false → s.ground = false → s.inport = true →
      netlistSigStep (ports, cells) (name, s) =
        (dictInsert ports name (portJson "input" s.id), cells)) ∧
    (s.power = false → s.ground = false → s.inport = false → s.outport = true →
      netlistSigStep (ports, cells) (name, s) =
        (dictInsert ports name (portJson "output" s.id), cells)) ∧
    (s.power = false → s.ground = false → s.inport = false → s.outport = false →
      netlistSigStep (ports, cells) (name, s) = (ports, cells)) := by
  refine ⟨?_, ?_, ?_, ?_, ?_⟩
  · intro h1
    simp [netlistSigStep, h1]
  · intro h1 h2
    simp [netlistSigStep, h1, h2]
  · intro h1 h2 h3
    simp [netlistSigStep, h1, h2, h3]
  · intro h1 h2 h3 h4
    simp [netlistSigStep, h1, h2, h3, h4]
  · intro h1 h2 h3 h4
    simp [netlistSigStep, h1, h2, h3, h4]

/-- A signal with every netlist flag set, to exhibit the priority order. -/
def sigAllFlags : ChipyAnalogSignal :=
  { ChipyAnalogSignal.make 7 "vcc" "top" with
      power := true, ground := true, inport := true, outport := true }

/-- C3, witness: on a signal with all four flags set, the power case wins. -/
theorem claim3_signal_priority_witness :
    netlistSigStep ([], []) ("vcc", sigAllFlags) =
      ([], dictInsert [] "vcc" (yosys_cell "power" [("VCC", sigAllFlags.id)] (.str "vcc"))) :=
  (claim3_signal_priority [] [] "vcc" sigAllFlags).1 rfl

/-- C8: AnalogSig is idempotent.  Handing it an existing signal returns
that signal and leaves the state unchanged, with an assert that a supplied
width equals the signal width (a mismatching width fails the assert).
Handing it a name twice under the same current module returns the very
signal the first call produced, with no state change on the second call:
the second call looks the signal up instead of creating a new one. -/
theorem claim8_analogsig_idempotent :
    (∀ st cur i s w, st.findSig i = some s →
      (w = Option.none ∨ w = some s.width) →
      AnalogSig st cur (.sig i) w = (.ok i, st)) ∧
    (∀ st cur i s w, st.findSig i = some s → s.width ≠ w →
      AnalogSig st cur (.sig i) (some w) = (.error .assertionError, st)) ∧
    (∀ st cur a i st1, AnalogSig st cur (.str a) Option.none = (.ok i, st1) →
      AnalogSig st1 cur (.str a) Option.none = (.ok i, st1)) := by
  refine ⟨?_, ?_, ?_⟩
  · intro st cur i s w hfind hw
    rcases hw with hw | hw
    · subst hw
      rfl
    · subst hw
      simp [AnalogSig, hfind]
  · intro st cur i s w hfind hne
    simp [AnalogSig, hfind, hne]
  · intro st cur a i st1 h
    cases hA : st.findAnalog cur with
    | none => simp [AnalogSig, hA] at h
    | some m =>
      cases hG : dictGet m.signals a with
      | some i0 =>
        simp [AnalogSig, hA, hG] at h
        obtain ⟨hi, hst⟩ := h
        subst hi
        subst hst
        simp [AnalogSig, hA, hG]
      | none =>
        have hinit := signalInit_eq st cur a m hA
        simp [AnalogSig, hA, hG, hinit] at h
        obtain ⟨hi, hst⟩ := h
        subst hi
        subst hst
        have hga : ChipyState.findAnalog
            { st with
                sigId := st.sigId + 1
                sigs := st.sigs ++ [ChipyAnalogSignal.make (st.sigId + 1) a cur]
                modules := dictInsert st.modules cur
                  (.analog { m with signals := dictInsert m.signals a (st.sigId + 1) }) } cur =
            some { m with signals := dictInsert m.signals a (st.sigId + 1) } := by
          simp [ChipyState.findAnalog, dictGet_insert_self]
        simp [AnalogSig, hga, dictGet_insert_self]

/-- The signal record din holds in stDin. -/
def sigDin : ChipyAnalogSignal :=
  { ChipyAnalogSignal.make 1 "din" "top" with
      inport := true, digital := true,
      high_value := .float (mkRat 33 10), low_value := .int 0 }

/-- Example state: module top after AnalogSig created the plain net. -/
def stNet : ChipyState := (AnalogSig stTop "top" (.str "net") Option.none).2

/-- C8, witness: the existing signal din is returned unchanged with its
width asserted, and the second lookup of a net created by AnalogSig
returns the same signal with no state change. -/
theorem claim8_analogsig_idempotent_witness :
    AnalogSig stDin "top" (.sig 1) (some 1) = (.ok 1, stDin) ∧
    AnalogSig stNet "top" (.str "net") Option.none = (.ok 1, stNet) := by
  constructor
  · exact claim8_analogsig_idempotent.1 stDin "top" 1 sigDin (some 1) (by decide)
      (Or.inr (by decide))
  · exact claim8_analogsig_idempotent.2.2 stTop "top" "net" 1 stNet (by decide)


/-- The heap after a setSig, written as a map. -/
theorem setSig_sigs (st : ChipyState) (i : Nat) (f : ChipyAnalogSignal → ChipyAnalogSignal) :
    (st.setSig i f).sigs = st.sigs.map fun s => if s.id = i then f s else s := rfl

/-- A setSig never changes the SigId counter. -/
theorem setSig_sigId (st : ChipyState) (i : Nat) (f : ChipyAnalogSignal → ChipyAnalogSignal) :
    (st.setSig i f).sigId = st.sigId := rfl

/-- The digital input record produced by a single-name AddDigitalInput. -/
def digitalInputRec (id : Nat) (nm cur : String) (t hv lv : PyVal) : ChipyAnalogSignal :=
  { ChipyAnalogSignal.make id nm cur with
      width := t.toIntVal, inport := true, digital := true,
      high_value := hv, low_value := lv }

/-- Characterisation of a successful single-name AddDigitalInput call:
the returned id is the fresh SigId value and the heap grows by exactly one
record, the created signal with the requested width, levels and flags. -/
theorem addDigitalInputSingle_ok (st : ChipyState) (cur n : String) (t hv lv : PyVal)
    (i : Nat) (st2 : ChipyState) (hwf : st.wfSigs)
    (h : addDigitalInputSingle st cur n t hv lv = (.ok i, st2)) :
    i = st.sigId + 1 ∧ st2.sigId = st.sigId + 1 ∧
    st2.sigs = st.sigs ++ [digitalInputRec (st.sigId + 1) ((pySplit n).headI) cur t hv lv] := by
  unfold addDigitalInputSingle at h
  by_cases h1 : (pySplit n).length = 1
  swap
  · simp [h1] at h
  rw [if_pos h1] at h
  by_cases h2 : t.isInt
  swap
  · simp [h2] at h
  rw [if_pos h2] at h
  cases hA : st.findAnalog cur with
  | none => simp [ChipyAnalogSignal.init, hA] at h
  | some m =>
    rw [signalInit_eq st cur _ m hA] at h
    simp only [Prod.mk.injEq, Except.ok.injEq] at h
    obtain ⟨hi, hst⟩ := h
    subst hst
    have hne0 : ∀ s ∈ st.sigs, s.id ≠ st.sigId + 1 := by
      intro s hs
      have := hwf s hs
      omega
    refine ⟨hi.symm, rfl, ?_⟩
    simp only [setSig_sigs, List.map_append]
    rw [map_update_id st.sigs _ _ hne0, map_update_id st.sigs _ _ hne0,
      map_update_id st.sigs _ _ hne0, map_update_id st.sigs _ _ hne0,
      map_update_id st.sigs _ _ hne0]
    simp [ChipyAnalogSignal.make, digitalInputRec]

/-- An exception raised in an earlier iteration short-circuits the rest of
the AddDigitalInput comprehension. -/
theorem addDigitalInputsStep_foldl_error (cur : String) (names : List String) (e : PyErr)
    (s : ChipyState) :
    names.foldl (addDigitalInputsStep cur) (.error e, s) = (.error e, s) := by
  induction names with
  | nil => rfl
  | cons n rest ih => simpa [addDigitalInputsStep] using ih

/-- The signal attributes every iteration of the AddDigitalInput
comprehension produces: the defaults, not the arguments of the outer call. -/
def digitalDefaultSig (s : ChipyAnalogSignal) : Prop :=
  s.width = 1 ∧ s.high_value = .float (mkRat 33 10) ∧ s.low_value = .int 0 ∧
  s.digital = true ∧ s.inport = true

/-- Fold invariant of the AddDigitalInput comprehension: every id
collected so far dereferences to a default-parameter digital input. -/
theorem addDigitalFold_inv (cur : String) (names : List String) :
    ∀ (st : ChipyState) (ids0 ids : List Nat) (st1 : ChipyState),
    st.wfSigs →
    (∀ i ∈ ids0, i ≤ st.sigId ∧ ∃ s, st.findSig i = some s ∧ digitalDefaultSig s) →
    names.foldl (addDigitalInputsStep cur) (.ok ids0, st) = (.ok ids, st1) →
    ∀ i ∈ ids, i ≤ st1.sigId ∧ ∃ s, st1.findSig i = some s ∧ digitalDefaultSig s := by
  induction names with
  | nil =>
    intro st ids0 ids st1 hwf hinv h
    simp at h
    obtain ⟨h1, h2⟩ := h
    subst h1
    subst h2
    exact hinv
  | cons n rest ih =>
    intro st ids0 ids st1 hwf hinv h
    rw [List.foldl_cons] at h
    rcases hs : addDigitalInputSingle st cur n (.int 1) (.float (mkRat 33 10)) (.int 0)
      with ⟨r2, s2⟩
    cases r2 with
    | error e =>
      rw [show addDigitalInputsStep cur (.ok ids0, st) n = (.error e, s2) by
        simp [addDigitalInputsStep, hs]] at h
      rw [addDigitalInputsStep_foldl_error] at h
      simp at h
    | ok i1 =>
      rw [show addDigitalInputsStep cur (.ok ids0, st) n = (.ok (ids0 ++ [i1]), s2) by
        simp [addDigitalInputsStep, hs]] at h
      obtain ⟨hi1, hsid, hsigs⟩ := addDigitalInputSingle_ok st cur n _ _ _ i1 s2 hwf hs
      have hwf2 : s2.wfSigs := by
        intro s hsm
        rw [hsigs] at hsm
        rw [hsid]
        simp only [List.mem_append, List.mem_singleton] at hsm
        rcases hsm with hsm | hsm
        · exact Nat.le_succ_of_le (hwf s hsm)
        · simp [hsm, digitalInputRec, ChipyAnalogSignal.make]
      refine ih s2 (ids0 ++ [i1]) ids st1 hwf2 ?_ h
      intro i hi
      simp only [List.mem_append, List.mem_singleton] at hi
      rcases hi with hi | hi
      · obtain ⟨hle, s, hfind, hP⟩ := hinv i hi
        refine ⟨by omega, s, ?_, hP⟩
        unfold ChipyState.findSig at hfind ⊢
        rw [hsigs]
        exact find?_append_of_some _ _ _ _ hfind
      · subst hi
        rw [hi1]
        refine ⟨by omega,
          digitalInputRec (st.sigId + 1) ((pySplit n).headI) cur (.int 1)
            (.float (mkRat 33 10)) (.int 0), ?_, ?_⟩
        · unfold ChipyState.findSig
          rw [hsigs]
          rw [find?_append_of_none]
          · simp [List.find?, digitalInputRec, ChipyAnalogSignal.make]
          · exact find?_none_of_all _ _ fun s hsm => by
              have := hwf s hsm
              simp only [beq_eq_false_iff_ne, ne_eq]
              omega
        · simp [digitalDefaultSig, digitalInputRec, ChipyAnalogSignal.make, PyVal.toIntVal]

/-- The analog output record produced by a single-name AddAnalogOutput. -/
def analogOutputRec (id : Nat) (nm cur : String) (t : PyVal) : ChipyAnalogSignal :=
  { ChipyAnalogSignal.make id nm cur with width := t.toIntVal, outport := true }

/-- Characterisation of a successful single-name AddAnalogOutput call. -/
theorem addAnalogOutputSingle_ok (st : ChipyState) (cur n : String) (t : PyVal)
    (i : Nat) (st2 : ChipyState) (hwf : st.wfSigs)
    (h : addAnalogOutputSingle st cur n t = (.ok i, st2)) :
    i = st.sigId + 1 ∧ st2.sigId = st.sigId + 1 ∧
    st2.sigs = st.sigs ++ [analogOutputRec (st.sigId + 1) ((pySplit n).headI) cur t] := by
  unfold addAnalogOutputSingle at h
  by_cases h1 : (pySplit n).length = 1
  swap
  · simp [h1] at h
  rw [if_pos h1] at h
  by_cases h2 : t.isInt
  swap
  · simp [h2] at h
  rw [if_pos h2] at h
  cases hA : st.findAnalog cur with
  | none => simp [ChipyAnalogSignal.init, hA] at h
  | some m =>
    rw [signalInit_eq st cur _ m hA] at h
    simp only [Prod.mk.injEq, Except.ok.injEq] at h
    obtain ⟨hi, hst⟩ := h
    subst hst
    have hne0 : ∀ s ∈ st.sigs, s.id ≠ st.sigId + 1 := by
      intro s hs
      have := hwf s hs
      omega
    refine ⟨hi.symm, rfl, ?_⟩
    simp only [setSig_sigs, List.map_append]
    rw [map_update_id st.sigs _ _ hne0, map_update_id st.sigs _ _ hne0]
    simp [ChipyAnalogSignal.make, analogOutputRec]

/-- An exception raised in an earlier iteration short-circuits the rest of
the AddAnalogOutput comprehension. -/
theorem addAnalogOutputsStep_foldl_error (cur : String) (names : List String) (e : PyErr)
    (s : ChipyState) :
    names.foldl (addAnalogOutputsStep cur) (.error e, s) = (.error e, s) := by
  induction names with
  | nil => rfl
  | cons n rest ih => simpa [addAnalogOutputsStep] using ih

/-- The signal attributes every iteration of the AddAnalogOutput
comprehension produces: width 1 from the default type argument. -/
def analogDefaultSig (s : ChipyAnalogSignal) : Prop :=
  s.width = 1 ∧ s.outport = true

/-- Fold invariant of the AddAnalogOutput comprehension. -/
theorem addAnalogFold_inv (cur : String) (names : List String) :
    ∀ (st : ChipyState) (ids0 ids : List Nat) (st1 : ChipyState),
    st.wfSigs →
    (∀ i ∈ ids0, i ≤ st.sigId ∧ ∃ s, st.findSig i = some s ∧ analogDefaultSig s) →
    names.foldl (addAnalogOutputsStep cur) (.ok ids0, st) = (.ok ids, st1) →
    ∀ i ∈ ids, i ≤ st1.sigId ∧ ∃ s, st1.findSig i = some s ∧ analogDefaultSig s := by
  induction names with
  | nil =>
    intro st ids0 ids st1 hwf hinv h
    simp at h
    obtain ⟨h1, h2⟩ := h
    subst h1
    subst h2
    exact hinv
  | cons n rest ih =>
    intro st ids0 ids st1 hwf hinv h
    rw [List.foldl_cons] at h
    rcases hs : addAnalogOutputSingle st cur n (.int 1) with ⟨r2, s2⟩
    cases r2 with
    | error e =>
      rw [show addAnalogOutputsStep cur (.ok ids0, st) n = (.error e, s2) by
        simp [addAnalogOutputsStep, hs]] at h
      rw [addAnalogOutputsStep_foldl_error] at h
      simp at h
    | ok i1 =>
      rw [show addAnalogOutputsStep cur (.ok ids0, st) n = (.ok (ids0 ++ [i1]), s2) by
        simp [addAnalogOutputsStep, hs]] at h
      obtain ⟨hi1, hsid, hsigs⟩ := addAnalogOutputSingle_ok st cur n _ i1 s2 hwf hs
      have hwf2 : s2.wfSigs := by
        intro s hsm
        rw [hsigs] at hsm
        rw [hsid]
        simp only [List.mem_append, List.mem_singleton] at hsm
        rcases hsm with hsm | hsm
        · exact Nat.le_succ_of_le (hwf s hsm)
        · simp [hsm, analogOutputRec, ChipyAnalogSignal.make]
      refine ih s2 (ids0 ++ [i1]) ids st1 hwf2 ?_ h
      intro i hi
      simp only [List.mem_append, List.mem_singleton] at hi
      rcases hi with hi | hi
      · obtain ⟨hle, s, hfind, hP⟩ := hinv i hi
        refine ⟨by omega, s, ?_, hP⟩
        unfold ChipyState.findSig at hfind ⊢
        rw [hsigs]
        exact find?_append_of_some _ _ _ _ hfind
      · subst hi
        rw [hi1]
        refine ⟨by omega, analogOutputRec (st.sigId + 1) ((pySplit n).headI) cur (.int 1),
          ?_, ?_⟩
        · unfold ChipyState.findSig
          rw [hsigs]
          rw [find?_append_of_none]
          · simp [List.find?, analogOutputRec, ChipyAnalogSignal.make]
          · exact find?_none_of_all _ _ fun s hsm => by
              have := hwf s hsm
              simp only [beq_eq_false_iff_ne, ne_eq]
              omega
        · simp [analogDefaultSig, analogOutputRec, ChipyAnalogSignal.make, PyVal.toIntVal]

/-- C10: on a whitespace-separated multi-name string, AddDigitalInput
ignores its type, high_value and low_value arguments entirely (the call
equals the call with the defaults), and every signal it creates carries
the default parameters: width 1, high 3.3, low 0, digital inport.
Likewise AddAnalogOutput on a multi-name string ignores its type argument
and creates every signal with width 1. -/
theorem claim10_multiname_defaults (st : ChipyState) (cur name : String)
    (t hv lv : PyVal) (h : 1 < (pySplit name).length) :
    AddDigitalInput st cur name t hv lv =
      AddDigitalInput st cur name (.int 1) (.float (mkRat 33 10)) (.int 0) ∧
    AddAnalogOutput st cur name t = AddAnalogOutput st cur name (.int 1) ∧
    (st.wfSigs → ∀ ids st1, AddDigitalInput st cur name t hv lv = (.ok (.many ids), st1) →
      ∀ i ∈ ids, ∃ s, st1.findSig i = some s ∧ s.width = 1 ∧
        s.high_value = .float (mkRat 33 10) ∧ s.low_value = .int 0 ∧
        s.digital = true ∧ s.inport = true) ∧
    (st.wfSigs → ∀ ids st1, AddAnalogOutput st cur name t = (.ok (.many ids), st1) →
      ∀ i ∈ ids, ∃ s, st1.findSig i = some s ∧ s.width = 1 ∧ s.outport = true) := by
  refine ⟨by simp [AddDigitalInput, h], by simp [AddAnalogOutput, h], ?_, ?_⟩
  · intro hwf ids st1 hres i hi
    unfold AddDigitalInput at hres
    rw [if_pos h] at hres
    rcases hf : (pySplit name).foldl (addDigitalInputsStep cur) (.ok [], st) with ⟨r, stf⟩
    rw [hf] at hres
    cases r with
    | error e => simp [Except.map] at hres
    | ok ids2 =>
      simp only [Except.map, Prod.mk.injEq, Except.ok.injEq, SigResult.many.injEq] at hres
      obtain ⟨hids, hstf⟩ := hres
      subst hids
      subst hstf
      obtain ⟨_, s, hfind, hP⟩ :=
        addDigitalFold_inv cur (pySplit name) st [] ids2 stf hwf (by simp) hf i hi
      exact ⟨s, hfind, hP.1, hP.2.1, hP.2.2.1, hP.2.2.2.1, hP.2.2.2.2⟩
  · intro hwf ids st1 hres i hi
    unfold AddAnalogOutput at hres
    rw [if_pos h] at hres
    rcases hf : (pySplit name).foldl (addAnalogOutputsStep cur) (.ok [], st) with ⟨r, stf⟩
    rw [hf] at hres
    cases r with
    | error e => simp [Except.map] at hres
    | ok ids2 =>
      simp only [Except.map, Prod.mk.injEq, Except.ok.injEq, SigResult.many.injEq] at hres
      obtain ⟨hids, hstf⟩ := hres
      subst hids
      subst hstf
      obtain ⟨_, s, hfind, hP⟩ :=
        addAnalogFold_inv cur (pySplit name) st [] ids2 stf hwf (by simp) hf i hi
      exact ⟨s, hfind, hP.1, hP.2⟩

/-- Example state: the multi-name call on stTop with deliberately
non-default arguments. -/
def stAB : ChipyState := (AddDigitalInput stTop "top" "a b" (.str "zzz") (.int 7) (.int 8)).2

/-- C10, witness: the multi-name call with non-default arguments equals
the defaults call, and the first created signal has the default
parameters, not the supplied ones. -/
theorem claim10_multiname_defaults_witness :
    (AddDigitalInput stTop "top" "a b" (.str "zzz") (.int 7) (.int 8) =
      AddDigitalInput stTop "top" "a b" (.int 1) (.float (mkRat 33 10)) (.int 0)) ∧
    (∃ s, stAB.findSig 1 = some s ∧ s.width = 1 ∧
      s.high_value = .float (mkRat 33 10) ∧ s.low_value = .int 0 ∧
      s.digital = true ∧ s.inport = true) := by
  have H := claim10_multiname_defaults stTop "top" "a b" (.str "zzz") (.int 7) (.int 8)
    (by decide)
  exact ⟨H.1, H.2.2.1 (by decide) [1, 2] stAB (by decide) 1 (by decide)⟩

/-- Python j[k] on a serialized dictionary value. -/
def Json.get : Json → String → Option Json
  | .obj kvs, k => dictGet kvs k
  | _, _ => Option.none

/-- A cells entry is well-shaped when it is some yosys_cell. -/
def CellOk (e : String × Json) : Prop :=
  ∃ skin pins v, e.2 = yosys_cell skin pins v

/-- A ports entry is well-shaped for a signal list when it is the input or
output port dictionary of a signal registered under its key. -/
def PortOk (S : List (String × ChipyAnalogSignal)) (e : String × Json) : Prop :=
  ∃ s, (e.1, s) ∈ S ∧ (e.2 = portJson "input" s.id ∨ e.2 = portJson "output" s.id)

/-- Every cell the device loop of netlist inserts is a yosys_cell. -/
theorem netlistDevFold_inv (devices : List (String × ChipyDevice)) :
    ∀ cells0, (∀ e ∈ cells0, CellOk e) →
    ∀ e ∈ devices.foldl netlistDevStep cells0, CellOk e := by
  induction devices with
  | nil => intro cells0 h e he; exact h e he
  | cons rd rest ih =>
    intro cells0 h e he
    rw [List.foldl_cons] at he
    refine ih _ ?_ e he
    intro e2 he2
    unfold netlistDevStep at he2
    cases hsk : rd.2.Skin with
    | none =>
      rw [hsk] at he2
      exact h e2 he2
    | some skin =>
      rw [hsk] at he2
      rcases mem_dictInsert _ _ _ _ he2 with h2 | h2
      · exact h e2 h2
      · exact ⟨skin, rd.2.connections, rd.2.value, by rw [h2]⟩

/-- The signal loop of netlist preserves the shape of both dictionaries:
cells stay yosys_cells and ports stay signal port dictionaries. -/
theorem netlistSigFold_inv (S : List (String × ChipyAnalogSignal))
    (sigs : List (String × ChipyAnalogSignal)) :
    ∀ pc : List (String × Json) × List (String × Json),
    sigs ⊆ S →
    (∀ e ∈ pc.1, PortOk S e) →
    (∀ e ∈ pc.2, CellOk e) →
    (∀ e ∈ (sigs.foldl netlistSigStep pc).1, PortOk S e) ∧
    (∀ e ∈ (sigs.foldl netlistSigStep pc).2, CellOk e) := by
  induction sigs with
  | nil => intro pc _ hP hC; exact ⟨hP, hC⟩
  | cons ns rest ih =>
    intro pc hsub hP hC
    rw [List.foldl_cons]
    have hmem : (ns.1, ns.2) ∈ S := hsub (by simp)
    have hrest : rest ⊆ S := fun x hx => hsub (List.mem_cons_of_mem _ hx)
    rcases ns with ⟨n, s⟩
    by_cases hpw : s.power = true
    · refine ih _ hrest ?_ ?_
      · intro e he
        simp only [netlistSigStep, hpw, if_true] at he
        exact hP e he
      · intro e he
        simp only [netlistSigStep, hpw, if_true] at he
        rcases mem_dictInsert _ _ _ _ he with h2 | h2
        · exact hC e h2
        · exact ⟨"power", [("VCC", s.id)], .str n, by rw [h2]⟩
    · by_cases hgr : s.ground = true
      · refine ih _ hrest ?_ ?_
        · intro e he
          simp only [netlistSigStep, hpw, hgr] at he
          exact hP e he
        · intro e he
          simp only [netlistSigStep, hpw, hgr] at he
          simp only [if_false, Bool.false_eq_true, if_true] at he
          rcases mem_dictInsert _ _ _ _ he with h2 | h2
          · exact hC e h2
          · exact ⟨"ground", [("GND", s.id)], .str n, by rw [h2]⟩
      · by_cases hin : s.inport = true
        · refine ih _ hrest ?_ ?_
          · intro e he
            simp only [netlistSigStep, hpw, hgr, hin] at he
            simp only [Bool.false_eq_true, if_false, if_true] at he
            rcases mem_dictInsert _ _ _ _ he with h2 | h2
            · exact hP e h2
            · exact ⟨s, by rw [h2]; exact ⟨hmem, Or.inl rfl⟩⟩
          · intro e he
            simp only [netlistSigStep, hpw, hgr, hin] at he
            exact hC e he
        · by_cases hout : s.outport = true
          · refine ih _ hrest ?_ ?_
            · intro e he
              simp only [netlistSigStep, hpw, hgr, hin, hout] at he
              simp only [Bool.false_eq_true, if_false, if_true] at he
              rcases mem_dictInsert _ _ _ _ he with h2 | h2
              · exact hP e h2
              · exact ⟨s, by rw [h2]; exact ⟨hmem, Or.inr rfl⟩⟩
            · intro e he
              simp only [netlistSigStep, hpw, hgr, hin, hout] at he
              exact hC e he
          · refine ih _ hrest ?_ ?_
            · intro e he
              simp only [netlistSigStep, hpw, hgr, hin, hout] at he
              simp only [Bool.false_eq_true, if_false] at he
              exact hP e he
            · intro e he
              simp only [netlistSigStep, hpw, hgr, hin, hout] at he
              simp only [Bool.false_eq_true, if_false] at he
              exact hC e he

/-- C1: netlist() returns a dictionary with exactly the two keys ports
and cells; every cells entry is a yosys_cell, which has a type key and a
connections key wiring each pin to the one-element list of its net id and
carries an attributes dictionary holding the value exactly when the value
is not None; every ports entry is the port dictionary of a signal of the
module, with direction input or output and bits the one-element list of
the signal id. -/
theorem claim1_netlist_shape (st : ChipyState) (m : ChipyAnalogModule) :
    ∃ P C, m.netlist st = .obj [("ports", .obj P), ("cells", .obj C)] ∧
      (∀ e ∈ C, CellOk e) ∧
      (∀ e ∈ P, PortOk (resolveSigs st m) e) ∧
      (∀ skin pins (v : PyVal),
        (yosys_cell skin pins v).get "type" = some (.prim (.str skin)) ∧
        (yosys_cell skin pins v).get "connections" =
          some (.obj (pins.map fun p => (p.1, Json.arr [.prim (.int (p.2 : Int))]))) ∧
        (yosys_cell skin pins v).get "attributes" =
          (if v = PyVal.none then Option.none else some (.obj [("value", .prim v)]))) ∧
      (∀ d i, (portJson d i).get "direction" = some (.prim (.str d)) ∧
        (portJson d i).get "bits" = some (.arr [.prim (.int (i : Int))])) := by
  have hinv := netlistSigFold_inv (resolveSigs st m) (resolveSigs st m)
    ([], m.devices.foldl netlistDevStep []) (fun x hx => hx)
    (by intro e he; simp at he)
    (netlistDevFold_inv m.devices [] (by intro e he; simp at he))
  refine ⟨((resolveSigs st m).foldl netlistSigStep
      ([], m.devices.foldl netlistDevStep [])).1,
    ((resolveSigs st m).foldl netlistSigStep ([], m.devices.foldl netlistDevStep [])).2,
    rfl, hinv.2, hinv.1, ?_, ?_⟩
  · intro skin pins v
    refine ⟨rfl, rfl, ?_⟩
    by_cases hv : v = PyVal.none
    · simp [yosys_cell, Json.get, dictGet, hv]
    · simp [yosys_cell, Json.get, dictGet, hv]
  · intro d i
    exact ⟨rfl, rfl⟩

/-- The resistor connecting signals 1 and 2 with a 100 Ohm value. -/
def devR1 : ChipyDevice := .passive .resistor 1 2 (.float (mkRat 100 1))

/-- Example state: module top with digital input din, analog output aout. -/
def stDinAout : ChipyState := (AddAnalogOutput stDin "top" "aout" (.int 1)).2

/-- Example state: stDinAout with the resistor R1 registered. -/
def stFull : ChipyState := (ChipyDevice.init stDinAout "top" .resistor (some "R1") devR1).2

/-- The module record of top in stFull. -/
def topModFull : ChipyAnalogModule := ⟨"top", [("din", 1), ("aout", 2)], [("R1", devR1)]⟩

/-- C1, witness: the shape property instantiated on a module with a
resistor cell, an input port and an output port. -/
theorem claim1_netlist_shape_witness :
    ∃ P C, topModFull.netlist stFull = .obj [("ports", .obj P), ("cells", .obj C)] ∧
      (∀ e ∈ C, CellOk e) ∧
      (∀ e ∈ P, PortOk (resolveSigs stFull topModFull) e) ∧
      (∀ skin pins (v : PyVal),
        (yosys_cell skin pins v).get "type" = some (.prim (.str skin)) ∧
        (yosys_cell skin pins v).get "connections" =
          some (.obj (pins.map fun p => (p.1, Json.arr [.prim (.int (p.2 : Int))]))) ∧
        (yosys_cell skin pins v).get "attributes" =
          (if v = PyVal.none then Option.none else some (.obj [("value", .prim v)]))) ∧
      (∀ d i, (portJson d i).get "direction" = some (.prim (.str d)) ∧
        (portJson d i).get "bits" = some (.arr [.prim (.int (i : Int))])) :=
  claim1_netlist_shape stFull topModFull

/-- The number of EispiceDigitalInput attributes equals the number of
resolved signals that are both digital and inports. -/
theorem eispice_digital_count (st : ChipyState) (sigs : List (String × Nat)) :
    (sigs.filterMap fun ns =>
      match st.findSig ns.2 with
      | some s =>
        if s.digital && s.inport then
          some (ns.1, EispiceDeviceModel.digitalInput s.name s.high_value s.low_value)
        else Option.none
      | Option.none => Option.none).length =
    ((sigs.filterMap fun ns => (st.findSig ns.2).map fun s => (ns.1, s)).filter
      fun ns => ns.2.digital && ns.2.inport).length := by
  induction sigs with
  | nil => rfl
  | cons ns rest ih =>
    cases hfs : st.findSig ns.2 with
    | none =>
      simp only [List.filterMap_cons, hfs]
      exact ih
    | some s =>
      simp only [List.filterMap_cons, hfs, Option.map_some', List.filter_cons]
      by_cases hdi : (s.digital && s.inport) = true
      · simp only [if_pos hdi, List.length_cons]
        rw [ih]
      · simp only [if_neg hdi]
        exact ih

/-- C6: eispice_model() builds a circuit titled with the module name,
holding one attribute per registered device with that device eispice
model, plus one EispiceDigitalInput per digital inport signal built from
the signal name and its high and low levels, and nothing else; a ground
signal serialises to eispice.GND and every other signal to its own name. -/
theorem claim6_eispice (st : ChipyState) (m : ChipyAnalogModule) :
    (m.eispice_model st).title = m.name ∧
    (∀ nd ∈ m.devices, (nd.1, nd.2.eispice_model st) ∈ (m.eispice_model st).attrs) ∧
    (∀ n i s, (n, i) ∈ m.signals → st.findSig i = some s →
      s.digital = true → s.inport = true →
      (n, .digitalInput s.name s.high_value s.low_value) ∈ (m.eispice_model st).attrs) ∧
    ((m.eispice_model st).attrs.length = m.devices.length +
      ((resolveSigs st m).filter fun ns => ns.2.digital && ns.2.inport).length) ∧
    (∀ s : ChipyAnalogSignal,
      (s.ground = true → s.eispice_model = .GND) ∧
      (s.ground = false → s.eispice_model = .name s.name)) := by
  refine ⟨rfl, ?_, ?_, ?_, ?_⟩
  · intro nd hnd
    simp only [ChipyAnalogModule.eispice_model, List.mem_append]
    left
    exact List.mem_map.mpr ⟨nd, hnd, rfl⟩
  · intro n i s hmem hfind hd hp
    simp only [ChipyAnalogModule.eispice_model, List.mem_append]
    right
    refine List.mem_filterMap.mpr ⟨(n, i), hmem, ?_⟩
    simp [hfind, hd, hp]
  · simp only [ChipyAnalogModule.eispice_model, List.length_append, List.length_map]
    rw [eispice_digital_count st m.signals]
    rfl
  · intro s
    constructor
    · intro h
      simp [ChipyAnalogSignal.eispice_model, h]
    · intro h
      simp [ChipyAnalogSignal.eispice_model, h]

/-- C6, witness: on the example module, the resistor attribute and the
EispiceDigitalInput attribute for din are both present. -/
theorem claim6_eispice_witness :
    (topModFull.eispice_model stFull).title = "top" ∧
    ("R1", ChipyDevice.eispice_model stFull devR1) ∈ (topModFull.eispice_model stFull).attrs ∧
    ("din", .digitalInput sigDin.name sigDin.high_value sigDin.low_value) ∈
      (topModFull.eispice_model stFull).attrs := by
  have H := claim6_eispice stFull topModFull
  refine ⟨H.1, ?_, ?_⟩
  · exact H.2.1 ("R1", devR1) (by decide)
  · exact H.2.2.1 "din" 1 sigDin (by decide) (by decide) (by decide) (by decide)

theorem dictGet_eq_none {α : Type} (d : List (String × α)) (k : String)
    (h : k ∉ d.map Prod.fst) : dictGet d k = Option.none := by
  induction d with
  | nil => rfl
  | cons p rest ih =>
    simp only [List.map_cons, List.mem_cons] at h
    push_neg at h
    obtain ⟨h1, h2⟩ := h
    have hne : p.1 ≠ k := fun he => h1 he.symm
    simp only [dictGet, if_neg hne]
    exact ih h2

/-- The dictionary the WriteNetlist loop builds, characterised entry by
entry: a name bound to an analog module maps to its netlist, every other
name falls through to the accumulator. -/
theorem writeNetlistFold_get (st : ChipyState) (l : List (String × PyModule)) :
    ∀ (acc : List (String × Json)), (l.map Prod.fst).Nodup → ∀ n,
    dictGet (l.foldl (writeNetlistStep st) acc) n =
      (match dictGet l n with
       | some (.analog m) => some (m.netlist st)
       | some (.other _) => dictGet acc n
       | Option.none => dictGet acc n) := by
  induction l with
  | nil => intro acc _ n; rfl
  | cons p rest ih =>
    intro acc hnd n
    simp only [List.map_cons, List.nodup_cons] at hnd
    rw [List.foldl_cons]
    rw [ih _ hnd.2 n]
    by_cases hn : p.1 = n
    · subst hn
      rw [dictGet_eq_none rest p.1 hnd.1]
      cases hp : p.2 with
      | analog m => simp [writeNetlistStep, dictGet, hp, dictGet_insert_self]
      | other tag => simp [writeNetlistStep, dictGet, hp]
    · have hn2 : n ≠ p.1 := fun he => hn he.symm
      cases hp : p.2 with
      | analog m =>
        simp [writeNetlistStep, dictGet, hn, hp, dictGet_insert_ne _ _ _ _ hn2]
      | other tag => simp [writeNetlistStep, dictGet, hn, hp]

/-- C2: WriteNetlist prints the sorted two-space-indented JSON dump of an
object with the single key modules, whose dictionary binds exactly the
names of the registered ChipyAnalogModule instances to their netlists and
omits every other registered module. -/
theorem claim2_write_netlist (st : ChipyState)
    (hnd : (st.modules.map Prod.fst).Nodup) :
    ∃ M, WriteNetlist st = jsonDumps (.obj [("modules", .obj M)]) ++ "\n" ∧
      (∀ n m, dictGet st.modules n = some (.analog m) →
        dictGet M n = some (m.netlist st)) ∧
      (∀ n tag, dictGet st.modules n = some (.other tag) → dictGet M n = Option.none) ∧
      (∀ n j, dictGet M n = some j →
        ∃ m, dictGet st.modules n = some (.analog m) ∧ j = m.netlist st) := by
  refine ⟨st.modules.foldl (writeNetlistStep st) [], rfl, ?_, ?_, ?_⟩
  · intro n m h
    rw [writeNetlistFold_get st st.modules [] hnd n, h]
  · intro n tag h
    rw [writeNetlistFold_get st st.modules [] hnd n, h]
    rfl
  · intro n j h
    rw [writeNetlistFold_get st st.modules [] hnd n] at h
    cases hg : dictGet st.modules n with
    | none =>
      rw [hg] at h
      simp [dictGet] at h
    | some pm =>
      cases pm with
      | analog m =>
        rw [hg] at h
        simp only [Option.some.injEq] at h
        exact ⟨m, rfl, h.symm⟩
      | other tag =>
        rw [hg] at h
        simp [dictGet] at h

/-- Example state: an analog module top next to a registered digital
module of the surrounding framework. -/
def stMixed : ChipyState :=
  { stDin with modules := stDin.modules ++ [("dig", .other "digital")] }

/-- C2, witness: the mixed registry serialises the analog module and
omits the digital one. -/
theorem claim2_write_netlist_witness :
    ∃ M, WriteNetlist stMixed = jsonDumps (.obj [("modules", .obj M)]) ++ "\n" ∧
      (∀ n m, dictGet stMixed.modules n = some (.analog m) →
        dictGet M n = some (m.netlist stMixed)) ∧
      (∀ n tag, dictGet stMixed.modules n = some (.other tag) → dictGet M n = Option.none) ∧
      (∀ n j, dictGet M n = some j →
        ∃ m, dictGet stMixed.modules n = some (.analog m) ∧ j = m.netlist stMixed) :=
  claim2_write_netlist stMixed (by decide)
